import Mathlib

set_option maxRecDepth 20000

/-!
Shallow embedding of the core of `lcd-character-creator`.

The repository is a Vite + React app whose logic lives in two App components:
the main `App.tsx` (LiquidCrystal / LiquidCrystal_I2C firmware templates, the
variant described by the README) and a second App variant using the hd44780
library (pin-number constants and the auto-detecting `hd44780_I2Cexp` class).
Both variants share, line for line, the same bitmap codec, history, and
import/export logic; those shared functions are embedded once.  The UI, DOM,
clipboard, `localStorage`, and file I/O are external collaborators and are not
modelled; every function below is a direct translation of the corresponding
TypeScript function.

Row vectors are JavaScript number arrays.  Wherever the code manipulates row
values they are integers, so row vectors are modelled as `List Int`; the one
place where arbitrary JavaScript numbers (NaN, infinities, fractional values)
matter — `clampRowValue` at the import/decode boundaries — is modelled over an
explicit JavaScript-number type `JSNum`.
-/

/-- A JavaScript number as far as this program can observe it: NaN, one of the
two infinities, or a finite value (modelled as a rational; the IEEE doubles
occurring in the program are a subset of the rationals). -/
inductive JSNum
  | nan
  | posInf
  | negInf
  | num (q : ℚ)
deriving DecidableEq

/-- `Number.isFinite`. -/
def JSNum.isFinite : JSNum → Bool
  | .num _ => true
  | _ => false

/-- `Math.trunc` on a finite JavaScript number: drop the fractional part,
rounding toward zero. -/
def jsTrunc (q : ℚ) : Int := q.num.tdiv (q.den : Int)

/-- `clampRowValue` (shared, App.tsx):
`if (!Number.isFinite(v)) return 0; return Math.max(0, Math.min(31, Math.trunc(v)))`.
The result is always an integer, hence the `Int` codomain. -/
def clampRowValue : JSNum → Int
  | .num q => max 0 (min 31 (jsTrunc q))
  | _ => 0

/-- `clampRowValue` specialised to an already-integral input (`Math.trunc` is
the identity there and an integer is always finite).  Used to embed the call
sites where the clamped value is an integer row value. -/
def clampInt (v : Int) : Int := max 0 (min 31 v)

/-- `ToUint32`: a JavaScript bitwise operator first reduces its operand to 32
bits (for the integral operands occurring here, reduction modulo 2^32). -/
def toU32 (x : Int) : Nat := (x % 4294967296).toNat

/-- Reinterpret a 32-bit pattern as a signed (two's-complement) 32-bit value,
the result type of the JavaScript bitwise operators. -/
def ofI32 (n : Nat) : Int := if n < 2147483648 then (n : Int) else (n : Int) - 4294967296

/-- JavaScript `~v`. -/
def jsNot (x : Int) : Int := ofI32 (toU32 x ^^^ 4294967295)

/-- JavaScript `a & b`. -/
def jsAnd (a b : Int) : Int := ofI32 (toU32 a &&& toU32 b)

/-- JavaScript `a | b`. -/
def jsOr (a b : Int) : Int := ofI32 (toU32 a ||| toU32 b)

/-- JavaScript `a >> b` (sign-propagating right shift: the left operand as an
Int32, shifted arithmetically, i.e. floor-divided by `2 ^ (b mod 32)`). -/
def jsShr (a : Int) (b : Nat) : Int := Int.fdiv (ofI32 (toU32 a)) ((2 : Int) ^ (b % 32))

/-- JavaScript `a << b`. -/
def jsShl (a : Int) (b : Nat) : Int := ofI32 ((toU32 a <<< (b % 32)) % 4294967296)

/-- `const ROWS = 8`. -/
def ROWS : Nat := 8

/-- `const COLS = 5`. -/
def COLS : Nat := 5

/-- `const BASE32 = '0123456789ABCDEFGHIJKLMNOPQRSTUV'`. -/
def BASE32 : String := "0123456789ABCDEFGHIJKLMNOPQRSTUV"

/-- One derived grid row of `rowsToGrid`:
`((rows[r] >> (COLS - 1 - c)) & 1) === 1` for `c = 0 .. COLS-1`. -/
def gridRowOf (v : Int) : List Bool :=
  (List.range COLS).map (fun c => jsAnd (jsShr v (COLS - 1 - c)) 1 == 1)

/-- `rowsToGrid` (shared, App.tsx).  `rows[r]` for a missing row is
`undefined`, which the bitwise pipeline turns into `0`; `List.getD r 0`
produces the same grid row. -/
def rowsToGrid (rows : List Int) : List (List Bool) :=
  (List.range ROWS).map (fun r => gridRowOf (rows.getD r 0))

/-- The per-row loop body of `gridToRows`: starting from `v = 0`, do
`if (row[c]) v |= 1 << (COLS - 1 - c)` for `c = 0 .. COLS-1` (`row[c]` for a
missing column is `undefined`, which is falsy, hence `getD c false`). -/
def rowValOf (row : List Bool) : Int :=
  (List.range COLS).foldl
    (fun v c => if row.getD c false then jsOr v (jsShl 1 (COLS - 1 - c)) else v) 0

/-- `gridToRows` (shared, App.tsx). -/
def gridToRows (grid : List (List Bool)) : List Int := grid.map rowValOf

/-- `encodeRowsBase32` (shared, App.tsx):
`rows.map((v) => BASE32[clampRowValue(v)] ?? '0').join('')`.  The clamped
index is always in range, but the `?? '0'` fallback is kept (`getD _ '0'`). -/
def encodeRowsBase32 (rows : List Int) : String :=
  String.mk (rows.map (fun v => BASE32.data.getD (clampInt v).toNat '0'))

/-- JavaScript `String.prototype.toUpperCase` applied to one character of
the token, as far as `BASE32.indexOf` can observe it.  JavaScript uses the
full Unicode uppercase mapping, possibly producing several characters.  The
only code points whose uppercase form meets the ASCII alphabet `0-9 A-V`
beyond the ASCII letters themselves are ı (U+0131) ↦ `"I"`, ſ (U+017F) ↦
`"S"`, and the ligatures ﬅ (U+FB05) and ﬆ (U+FB06) ↦ `"ST"`; every other
multi-character expansion (ß ↦ `"SS"`, ﬁ ↦ `"FI"`, ǰ ↦ `"J"` + combining
caron, …) contains no run of consecutive alphabet characters, and every
other non-ASCII code point uppercases outside the ASCII range.  Those are
mapped here by ASCII `Char.toUpper`, which likewise never lands in the
alphabet, so `indexOf` fails on them under both JavaScript and this model. -/
def jsToUpperCase (c : Char) : List Char :=
  if c = 'ı' then ['I']
  else if c = 'ſ' then ['S']
  else if c = 'ﬅ' then ['S', 'T']
  else if c = 'ﬆ' then ['S', 'T']
  else [c.toUpper]

/-- `String.prototype.indexOf`: position of the first occurrence of the
needle as a substring, `none` standing for the JavaScript `-1` (a needle of
several characters, such as the uppercase form `"ST"` of ﬆ, is found at the
position of its first character: `BASE32.indexOf("ST") = 28`). -/
def indexOfStr : List Char → List Char → Nat → Option Nat
  | [], needle, k => if needle.isEmpty then some k else none
  | c :: cs, needle, k =>
    if needle.isPrefixOf (c :: cs) then some k else indexOfStr cs needle (k + 1)

/-- `BASE32.indexOf(s[i].toUpperCase())`. -/
def base32IndexOf (c : Char) : Option Nat := indexOfStr BASE32.data (jsToUpperCase c) 0

/-- The character loop of `decodeRowsBase32`: look each character up in the
alphabet, pushing the index; a failed lookup (`idx < 0`) returns null
immediately. -/
def decodeChars : List Char → Option (List Int)
  | [] => some []
  | c :: cs =>
    match base32IndexOf c with
    | none => none
    | some i => (decodeChars cs).map (fun out => ((i : Nat) : Int) :: out)

/-- `decodeRowsBase32` (shared, App.tsx):
`if (s.length !== ROWS) return null`, then the character loop. -/
def decodeRowsBase32 (s : String) : Option (List Int) :=
  if s.length = ROWS then decodeChars s.data else none

/-- JavaScript `v.toString(2)` for an integral number: minimal binary digits,
with a leading minus sign for a negative value. -/
def jsBinString (v : Int) : List Char :=
  if v < 0 then '-' :: Nat.toDigits 2 v.natAbs else Nat.toDigits 2 v.toNat

/-- `String.prototype.padStart(n, c)`. -/
def padStart (l : List Char) (n : Nat) (c : Char) : List Char :=
  List.replicate (n - l.length) c ++ l

/-- One line of `rowsToBinaryStrings` (shared, App.tsx):
``` `B${v.toString(2).padStart(COLS, '0')}` ``` (note: no clamping here). -/
def rowToBinChars (v : Int) : List Char := 'B' :: padStart (jsBinString v) COLS '0'

/-- `rowsToBinaryStrings` (shared, App.tsx), at the character-list level. -/
def rowsToBinaryStrings (rows : List Int) : List (List Char) := rows.map rowToBinChars

/-- One line of `rowsToHexStrings` (shared, App.tsx):
``` `0x${clampRowValue(v).toString(16).toUpperCase().padStart(2, '0')}` ```. -/
def rowToHexChars (v : Int) : List Char :=
  '0' :: 'x' :: padStart ((Nat.toDigits 16 (clampInt v).toNat).map Char.toUpper) 2 '0'

/-- `rowsToHexStrings` (shared, App.tsx), at the character-list level. -/
def rowsToHexStrings (rows : List Int) : List (List Char) := rows.map rowToHexChars

/-- `type Interfacing = 'parallel' | 'i2c'`. -/
inductive Interfacing
  | parallel
  | i2c
deriving DecidableEq

/-- `type DataType = 'bin' | 'hex'`. -/
inductive DataType
  | bin
  | hex
deriving DecidableEq

/-- `type LcdColor = 'green' | 'blue'` (main App variant). -/
inductive LcdColor
  | green
  | blue
deriving DecidableEq

/-- `type History<T> = { past: T[]; present: T; future: T[] }`, at
`T = number[]`. -/
structure EditHistory where
  past : List (List Int)
  present : List Int
  future : List (List Int)
deriving DecidableEq

/-- `emptyRows()`: eight zero rows. -/
def emptyRows : List Int := List.replicate ROWS 0

/-- The initial history state: all-zero present, empty past and future. -/
def initialHistory : EditHistory := ⟨[], emptyRows, []⟩

/-- The `same` test of `commitRows`:
`h.present.every((v, i) => v === nextRows[i])` (a number is never strictly
equal to `undefined`, hence the `Option` comparison). -/
def sameRows (present nextRows : List Int) : Bool :=
  present.enum.all (fun p => nextRows.get? p.1 == some p.2)

/-- `commitRows` (shared, App.tsx): a snapshot equal to the present is a
no-op; otherwise append the present to the past, install the snapshot, and
clear the future. -/
def commitRows (h : EditHistory) (nextRows : List Int) : EditHistory :=
  if sameRows h.present nextRows then h
  else ⟨h.past ++ [h.present], nextRows, []⟩

/-- `undo` (shared, App.tsx): no-op on empty past, else pop the last past
snapshot into present and push the old present onto the future.  (`getLastD`
with an arbitrary default models `h.past[h.past.length - 1]!`, only evaluated
when the past is non-empty.) -/
def undo (h : EditHistory) : EditHistory :=
  if h.past.length = 0 then h
  else ⟨h.past.dropLast, h.past.getLastD [], h.present :: h.future⟩

/-- `redo` (shared, App.tsx): no-op on empty future, else shift the first
future snapshot into present and push the old present onto the past. -/
def redo (h : EditHistory) : EditHistory :=
  match h.future with
  | [] => h
  | next :: rest => ⟨h.past ++ [h.present], next, rest⟩

/-- The per-row operation of `invert` (shared, App.tsx):
`clampRowValue((~v) & 0b11111)` (integral input, so `clampInt`). -/
def invertRow (v : Int) : Int := clampInt (jsAnd (jsNot v) 31)

/-- The row vector committed by `invert`. -/
def invertRows (rows : List Int) : List Int := rows.map invertRow

/-- A raw candidate record from a parsed `saves` array in `importJsonFile`
(main App variant).  `none` is an absent (or, for `rows`, non-array) field;
`rows` entries are the `Number(v)` coercions of the JSON values. -/
structure RawSave where
  id : Option String
  name : Option String
  rows : Option (List JSNum)
  color : Option String
  interfacing : Option String
  datatype : Option String
  createdAt : Option JSNum
  updatedAt : Option JSNum
deriving DecidableEq

/-- `type SaveItem` (main App variant). -/
structure SaveItem where
  id : String
  name : String
  rows : List Int
  color : LcdColor
  interfacing : Interfacing
  datatype : DataType
  createdAt : JSNum
  updatedAt : JSNum
deriving DecidableEq

/-- The filter of the list-import branch of `importJsonFile`:
`(x) => x && Array.isArray(x.rows) && x.rows.length === ROWS`. -/
def keepCandidate (x : RawSave) : Bool :=
  match x.rows with
  | some l => l.length == ROWS
  | none => false

/-- The list-import branch of `importJsonFile` (main App variant,
`parsed.saves` present and an array): filter the concatenation of the
imported and existing records, then coerce each survivor field by field.
`incoming` is the already-concatenated `[...parsed.saves, ...saves]`;
`freshId` stands in for the impure `makeId()` (indexed by position so each
record draws a fresh identifier) and `now` for `Date.now()`. -/
def importMergeSaves (incoming : List RawSave) (freshId : Nat → String)
    (now : JSNum) : List SaveItem :=
  ((incoming.filter keepCandidate).enum).map (fun p =>
    { id := p.2.id.getD (freshId p.1)
      name := p.2.name.getD "Imported"
      rows := (p.2.rows.getD []).map clampRowValue
      color := if p.2.color = some "blue" then .blue else .green
      interfacing := if p.2.interfacing = some "i2c" then .i2c else .parallel
      datatype := if p.2.datatype = some "hex" then .hex else .bin
      createdAt := p.2.createdAt.getD now
      updatedAt := p.2.updatedAt.getD now })

/-- The placeholder `{DataX i}` of the firmware templates (template literal
`` `{DataX${i}}` ``). -/
def placeholder (i : Nat) : List Char :=
  '\x7b' :: 'D' :: 'a' :: 't' :: 'a' :: 'X' :: (Nat.toDigits 10 i ++ ['\x7d'])

/-- JavaScript `String.prototype.replace` with a plain-string pattern:
replace the first (leftmost) occurrence of `pat` only; a string without an
occurrence is returned unchanged.  (The empty-pattern corner case of the
JavaScript method does not arise: the placeholders are never empty.) -/
def jsReplaceOnce : List Char → List Char → List Char → List Char
  | [], _, _ => []
  | c :: cs, pat, rep =>
    if pat.isPrefixOf (c :: cs) then rep ++ (c :: cs).drop pat.length
    else c :: jsReplaceOnce cs pat rep

/-- The substitution loop of `buildArduinoCode`:
`for (let i = 0; i < ROWS; i++) code = code.replace({DataX i}, lines[i]!)`.
(`lines[i]` for an out-of-range index would be `undefined`, which `replace`
would stringify; with eight rows every index is in range.) -/
def substDataLines (template : List Char) (lines : List (List Char)) : List Char :=
  (List.range ROWS).foldl
    (fun code i => jsReplaceOnce code (placeholder i) (lines.getD i "undefined".data))
    template

/-- JavaScript `String.prototype.trimEnd`: drop trailing whitespace (the
JavaScript and Lean whitespace classes agree on the ASCII text produced
here). -/
def jsTrimEnd (l : List Char) : List Char :=
  (l.reverse.dropWhile Char.isWhitespace).reverse

/-- `templateParallel` of the main App variant (LiquidCrystal, direct pin
wiring; braces written `\x7b`/`\x7d`). -/
def templateParallelLC : String :=
  "#include <LiquidCrystal.h>\n" ++
  "\n" ++
  "LiquidCrystal lcd(12, 11, 5, 4, 3, 2); // RS, E, D4, D5, D6, D7\n" ++
  "\n" ++
  "byte customChar[] = \x7b\n" ++
  "  \x7bDataX0\x7d,\n" ++
  "  \x7bDataX1\x7d,\n" ++
  "  \x7bDataX2\x7d,\n" ++
  "  \x7bDataX3\x7d,\n" ++
  "  \x7bDataX4\x7d,\n" ++
  "  \x7bDataX5\x7d,\n" ++
  "  \x7bDataX6\x7d,\n" ++
  "  \x7bDataX7\x7d\n" ++
  "\x7d;\n" ++
  "\n" ++
  "void setup() \x7b\n" ++
  "  lcd.begin(16, 2);\n" ++
  "  lcd.createChar(0, customChar);\n" ++
  "  lcd.home();\n" ++
  "  lcd.write(0);\n" ++
  "\x7d\n" ++
  "\n" ++
  "void loop() \x7b \x7d\n"

/-- `templateI2c` of the main App variant (LiquidCrystal_I2C, fixed bus
address). -/
def templateI2cLC : String :=
  "#include <Wire.h>\n" ++
  "#include <LiquidCrystal_I2C.h>\n" ++
  "\n" ++
  "// Set the LCD address to 0x27 in PCF8574 by NXP and Set to 0x3F in PCF8574A by Ti\n" ++
  "LiquidCrystal_I2C lcd(0x3F, 16, 2);\n" ++
  "\n" ++
  "byte customChar[] = \x7b\n" ++
  "  \x7bDataX0\x7d,\n" ++
  "  \x7bDataX1\x7d,\n" ++
  "  \x7bDataX2\x7d,\n" ++
  "  \x7bDataX3\x7d,\n" ++
  "  \x7bDataX4\x7d,\n" ++
  "  \x7bDataX5\x7d,\n" ++
  "  \x7bDataX6\x7d,\n" ++
  "  \x7bDataX7\x7d\n" ++
  "\x7d;\n" ++
  "\n" ++
  "void setup() \x7b\n" ++
  "  lcd.begin();\n" ++
  "  lcd.createChar(0, customChar);\n" ++
  "  lcd.home();\n" ++
  "  lcd.write(0);\n" ++
  "\x7d\n" ++
  "\n" ++
  "void loop() \x7b \x7d\n"

/-- `templateParallel` of the hd44780 App variant (six named pin-number
constants, `hd44780_pinIO`). -/
def templateParallelHD : String :=
  "#include <hd44780.h>\n" ++
  "#include <hd44780ioClass/hd44780_pinIO.h>\n" ++
  "\n" ++
  "// Pin wiring: RS, EN, D4, D5, D6, D7\n" ++
  "const int LCD_RS = 12;\n" ++
  "const int LCD_EN = 11;\n" ++
  "const int LCD_D4 = 5;\n" ++
  "const int LCD_D5 = 4;\n" ++
  "const int LCD_D6 = 3;\n" ++
  "const int LCD_D7 = 2;\n" ++
  "\n" ++
  "hd44780_pinIO lcd(LCD_RS, LCD_EN, LCD_D4, LCD_D5, LCD_D6, LCD_D7);\n" ++
  "\n" ++
  "byte customChar[] = \x7b\n" ++
  "  \x7bDataX0\x7d,\n" ++
  "  \x7bDataX1\x7d,\n" ++
  "  \x7bDataX2\x7d,\n" ++
  "  \x7bDataX3\x7d,\n" ++
  "  \x7bDataX4\x7d,\n" ++
  "  \x7bDataX5\x7d,\n" ++
  "  \x7bDataX6\x7d,\n" ++
  "  \x7bDataX7\x7d\n" ++
  "\x7d;\n" ++
  "\n" ++
  "void setup() \x7b\n" ++
  "  int status = lcd.begin(16, 2);\n" ++
  "  if (status) \x7b\n" ++
  "    // If you want error details, see: https://github.com/duinoWitchery/hd44780\n" ++
  "    // status = lcd.status();\n" ++
  "  \x7d\n" ++
  "\n" ++
  "  lcd.createChar(0, customChar);\n" ++
  "  lcd.clear();\n" ++
  "  lcd.home();\n" ++
  "  lcd.write((uint8_t)0);\n" ++
  "\x7d\n" ++
  "\n" ++
  "void loop() \x7b \x7d\n"

/-- `templateI2c` of the hd44780 App variant (`hd44780_I2Cexp`, which
auto-detects the I2C address and pin mapping; no pin constants). -/
def templateI2cHD : String :=
  "#include <hd44780.h>\n" ++
  "#include <hd44780ioClass/hd44780_I2Cexp.h>\n" ++
  "\n" ++
  "// Uses the hd44780 \"I2Cexp\" i/o class for PCF8574 backpacks.\n" ++
  "// It can auto-detect the I2C address and the pin mapping on most modules.\n" ++
  "hd44780_I2Cexp lcd;\n" ++
  "\n" ++
  "byte customChar[] = \x7b\n" ++
  "  \x7bDataX0\x7d,\n" ++
  "  \x7bDataX1\x7d,\n" ++
  "  \x7bDataX2\x7d,\n" ++
  "  \x7bDataX3\x7d,\n" ++
  "  \x7bDataX4\x7d,\n" ++
  "  \x7bDataX5\x7d,\n" ++
  "  \x7bDataX6\x7d,\n" ++
  "  \x7bDataX7\x7d\n" ++
  "\x7d;\n" ++
  "\n" ++
  "void setup() \x7b\n" ++
  "  int status = lcd.begin(16, 2);\n" ++
  "  if (status) \x7b\n" ++
  "    // If you want error details, see: https://github.com/duinoWitchery/hd44780\n" ++
  "    // status = lcd.status();\n" ++
  "  \x7d\n" ++
  "\n" ++
  "  lcd.createChar(0, customChar);\n" ++
  "  lcd.clear();\n" ++
  "  lcd.home();\n" ++
  "  lcd.write((uint8_t)0);\n" ++
  "\x7d\n" ++
  "\n" ++
  "void loop() \x7b \x7d\n"

/-- `buildArduinoCode` of the main App variant (LiquidCrystal templates). -/
def buildArduinoCodeLC (rows : List Int) (interfacing : Interfacing)
    (datatype : DataType) : String :=
  let lines := if datatype = .hex then rowsToHexStrings rows else rowsToBinaryStrings rows
  let template := if interfacing = .parallel then templateParallelLC else templateI2cLC
  ⟨jsTrimEnd (substDataLines template.data lines)⟩

/-- `buildArduinoCode` of the hd44780 App variant. -/
def buildArduinoCodeHD (rows : List Int) (interfacing : Interfacing)
    (datatype : DataType) : String :=
  let lines := if datatype = .hex then rowsToHexStrings rows else rowsToBinaryStrings rows
  let template := if interfacing = .parallel then templateParallelHD else templateI2cHD
  ⟨jsTrimEnd (substDataLines template.data lines)⟩

/-- The text of every template up to the first placeholder ends with
`"byte customChar[] = \x7b\n"`; `phGapFirst` is the indentation between that
newline and the first placeholder. -/
def phGapFirst : String := "  "

/-- The separator between two consecutive placeholders: `",\n  "`. -/
def phGapSep : String := ",\n  "

/-- The gap sequence of every template: indentation, then seven
comma-newline-indentation separators. -/
def stdGaps : List (List Char) :=
  [phGapFirst.data, phGapSep.data, phGapSep.data, phGapSep.data,
   phGapSep.data, phGapSep.data, phGapSep.data, phGapSep.data]

/-- `templateParallelLC` up to (excluding) the opening brace of
`customChar`. -/
def preParallelLC : String :=
  "#include <LiquidCrystal.h>\n\nLiquidCrystal lcd(12, 11, 5, 4, 3, 2); // RS, E, D4, D5, D6, D7\n\nbyte customChar[] = "

/-- `templateParallelLC` after the last placeholder. -/
def tailParallelLC : String :=
  "\n\x7d;\n\nvoid setup() \x7b\n  lcd.begin(16, 2);\n  lcd.createChar(0, customChar);\n  lcd.home();\n  lcd.write(0);\n\x7d\n\nvoid loop() \x7b \x7d\n"

/-- `templateI2cLC` up to (excluding) the opening brace of `customChar`. -/
def preI2cLC : String :=
  "#include <Wire.h>\n#include <LiquidCrystal_I2C.h>\n\n// Set the LCD address to 0x27 in PCF8574 by NXP and Set to 0x3F in PCF8574A by Ti\nLiquidCrystal_I2C lcd(0x3F, 16, 2);\n\nbyte customChar[] = "

/-- `templateI2cLC` after the last placeholder. -/
def tailI2cLC : String :=
  "\n\x7d;\n\nvoid setup() \x7b\n  lcd.begin();\n  lcd.createChar(0, customChar);\n  lcd.home();\n  lcd.write(0);\n\x7d\n\nvoid loop() \x7b \x7d\n"

/-- `templateParallelHD` up to (excluding) the opening brace of
`customChar`. -/
def preParallelHD : String :=
  "#include <hd44780.h>\n#include <hd44780ioClass/hd44780_pinIO.h>\n\n// Pin wiring: RS, EN, D4, D5, D6, D7\nconst int LCD_RS = 12;\nconst int LCD_EN = 11;\nconst int LCD_D4 = 5;\nconst int LCD_D5 = 4;\nconst int LCD_D6 = 3;\nconst int LCD_D7 = 2;\n\nhd44780_pinIO lcd(LCD_RS, LCD_EN, LCD_D4, LCD_D5, LCD_D6, LCD_D7);\n\nbyte customChar[] = "

/-- `templateI2cHD` up to (excluding) the opening brace of `customChar`. -/
def preI2cHD : String :=
  "#include <hd44780.h>\n#include <hd44780ioClass/hd44780_I2Cexp.h>\n\n// Uses the hd44780 \"I2Cexp\" i/o class for PCF8574 backpacks.\n// It can auto-detect the I2C address and the pin mapping on most modules.\nhd44780_I2Cexp lcd;\n\nbyte customChar[] = "

/-- The common text of both hd44780 templates after the last placeholder. -/
def tailHD : String :=
  "\n\x7d;\n\nvoid setup() \x7b\n  int status = lcd.begin(16, 2);\n  if (status) \x7b\n    // If you want error details, see: https://github.com/duinoWitchery/hd44780\n    // status = lcd.status();\n  \x7d\n\n  lcd.createChar(0, customChar);\n  lcd.clear();\n  lcd.home();\n  lcd.write((uint8_t)0);\n\x7d\n\nvoid loop() \x7b \x7d\n"

/-- The placeholder region of a template: gaps interleaved with
placeholders `start`, `start+1`, …, then the tail. -/
def phSkeleton : List (List Char) → Nat → List Char → List Char
  | [], _, tail => tail
  | g :: gs, i, tail => g ++ (placeholder i ++ phSkeleton gs (i + 1) tail)

/-- The same region after substitution: gaps interleaved with the rendered
data lines. -/
def phFilledL : List (List Char) → (Nat → List Char) → Nat → List Char → List Char
  | [], _, _, tail => tail
  | g :: gs, lineAt, i, tail => g ++ (lineAt i ++ phFilledL gs lineAt (i + 1) tail)

/-- A character list without an opening brace, so that scanning it can never
start a placeholder match. -/
@[reducible] def BraceClean (l : List Char) : Prop := ∀ c ∈ l, c ≠ '\x7b'

/-- `a` is transparent for `String.replace` with pattern `pat`: scanning it
never finds a match, even against an arbitrary continuation. -/
def PassesThrough (a pat : List Char) : Prop :=
  ∀ t rep, jsReplaceOnce (a ++ t) pat rep = a ++ jsReplaceOnce t pat rep

/-- The rendered data line for row `i`: what `lines[i]!` denotes inside
`buildArduinoCode` (shared by both App variants). -/
def lineFn (rows : List Int) (dt : DataType) : Nat → List Char :=
  fun i =>
    (if dt = .hex then rowsToHexStrings rows else rowsToBinaryStrings rows).getD
      i "undefined".data

/-- The six pin-number constant declarations of the hd44780 parallel
template. -/
def pinConstLines : List String :=
  ["const int LCD_RS = 12;", "const int LCD_EN = 11;", "const int LCD_D4 = 5;",
   "const int LCD_D5 = 4;", "const int LCD_D6 = 3;", "const int LCD_D7 = 2;"]

/-- A list-import candidate whose `rows` array has seven elements. -/
def rawSevenRows : RawSave :=
  { id := none, name := some "seven", rows := some (List.replicate 7 (.num 1)),
    color := none, interfacing := none, datatype := none,
    createdAt := none, updatedAt := none }

/-- A list-import candidate whose `rows` array has eight (out-of-range)
elements. -/
def rawEightRows : RawSave :=
  { id := none, name := some "eight", rows := some (List.replicate 8 (.num 40)),
    color := none, interfacing := none, datatype := none,
    createdAt := none, updatedAt := none }

/-- The concrete segments lying between the data lines of a filled template:
the running prefix joined with the first gap, then each later gap, then the
tail.  A pattern avoiding the data lines occurs in the filled template only
if it occurs in one of these. -/
def infixSegs : List Char → List (List Char) → List Char → List (List Char)
  | x, [], tail => [x ++ tail]
  | x, g :: gs, tail => (x ++ g) :: infixSegs [] gs tail

theorem placeholder_eq (i : Nat) :
    placeholder i
      = '\x7b' :: 'D' :: ('a' :: 't' :: 'a' :: 'X' :: (Nat.toDigits 10 i ++ ['\x7d'])) := rfl

theorem placeholder_ne_nil (i : Nat) : placeholder i ≠ [] := by
  rw [placeholder_eq]
  exact List.cons_ne_nil _ _

theorem passes_cons_ne {c hc : Char} {pt : List Char} (hne : c ≠ hc) :
    PassesThrough [c] (hc :: pt) := by
  intro t rep
  have hpre : ((hc :: pt).isPrefixOf (c :: t)) = false := by
    simp only [List.isPrefixOf_cons₂, Bool.and_eq_false_iff]
    left
    simp [Ne.symm hne]
  show jsReplaceOnce (c :: t) (hc :: pt) rep = c :: jsReplaceOnce t (hc :: pt) rep
  rw [jsReplaceOnce, if_neg (by simp [hpre])]

theorem passes_of_notMem {hc : Char} {pt : List Char} :
    ∀ {a : List Char}, (∀ c ∈ a, c ≠ hc) → PassesThrough a (hc :: pt) := by
  intro a
  induction a with
  | nil => intro _ t rep; rfl
  | cons c a ih =>
    intro ha t rep
    exact (passes_cons_ne (ha c (by simp)) (a ++ t) rep).trans
      (congrArg (fun x => c :: x) (ih (fun x hx => ha x (by simp [hx])) t rep))

theorem passes_append {a b pat : List Char} (ha : PassesThrough a pat)
    (hb : PassesThrough b pat) : PassesThrough (a ++ b) pat := by
  intro t rep
  rw [List.append_assoc, ha, hb, List.append_assoc]

theorem passes_pair {hc c2 h2 : Char} {pt : List Char} (h1 : c2 ≠ h2) (hq : c2 ≠ hc) :
    PassesThrough [hc, c2] (hc :: h2 :: pt) := by
  intro t rep
  have hpre : ((hc :: h2 :: pt).isPrefixOf (hc :: c2 :: t)) = false := by
    simp only [List.isPrefixOf_cons₂, Bool.and_eq_false_iff]
    right
    left
    simp [Ne.symm h1]
  show jsReplaceOnce (hc :: c2 :: t) (hc :: h2 :: pt) rep
      = hc :: c2 :: jsReplaceOnce t (hc :: h2 :: pt) rep
  rw [jsReplaceOnce, if_neg (by simp [hpre])]
  exact congrArg (fun x => hc :: x) (passes_cons_ne hq t rep)

theorem jsReplaceOnce_hit {pat : List Char} (b rep : List Char) (h : pat ≠ []) :
    jsReplaceOnce (pat ++ b) pat rep = rep ++ b := by
  cases pat with
  | nil => exact absurd rfl h
  | cons p ps =>
    show jsReplaceOnce (p :: (ps ++ b)) (p :: ps) rep = rep ++ b
    have hpre : (p :: ps).isPrefixOf (p :: (ps ++ b)) = true :=
      List.isPrefixOf_iff_prefix.mpr (List.prefix_append _ _)
    rw [jsReplaceOnce, if_pos hpre]
    rw [show p :: (ps ++ b) = (p :: ps) ++ b from rfl, List.drop_left]

theorem passes_placeholder_of_braceClean {a : List Char} (ha : BraceClean a) (i : Nat) :
    PassesThrough a (placeholder i) := by
  rw [placeholder_eq]
  exact passes_of_notMem ha

theorem substChain {L : Nat → List Char} :
    ∀ (gaps : List (List Char)) (start : Nat) (pre tail : List Char),
      (∀ i, PassesThrough pre (placeholder i)) →
      (∀ g ∈ gaps, BraceClean g) →
      (∀ i, BraceClean (L i)) →
      (List.range' start gaps.length).foldl
          (fun code i => jsReplaceOnce code (placeholder i) (L i))
          (pre ++ phSkeleton gaps start tail)
        = pre ++ phFilledL gaps L start tail := by
  intro gaps
  induction gaps with
  | nil => intro start pre tail _ _ _; rfl
  | cons g gs ih =>
    intro start pre tail hpre hg hL
    have hgap : BraceClean g := hg g (by simp)
    have hpassPre : PassesThrough (pre ++ g) (placeholder start) :=
      passes_append (hpre start) (passes_placeholder_of_braceClean hgap start)
    have hstep :
        jsReplaceOnce (pre ++ phSkeleton (g :: gs) start tail) (placeholder start) (L start)
          = pre ++ (g ++ (L start ++ phSkeleton gs (start + 1) tail)) := by
      show jsReplaceOnce (pre ++ (g ++ (placeholder start ++ phSkeleton gs (start + 1) tail)))
          (placeholder start) (L start) = _
      rw [← List.append_assoc pre g, hpassPre,
        jsReplaceOnce_hit _ _ (placeholder_ne_nil start), List.append_assoc]
    rw [show (g :: gs).length = gs.length + 1 from rfl, List.range'_succ start gs.length 1,
      List.foldl_cons, hstep,
      show pre ++ (g ++ (L start ++ phSkeleton gs (start + 1) tail))
          = (pre ++ (g ++ L start)) ++ phSkeleton gs (start + 1) tail by
        simp [List.append_assoc],
      ih (start + 1) (pre ++ (g ++ L start)) tail
        (fun i => passes_append (hpre i)
          (passes_append (passes_placeholder_of_braceClean hgap i)
            (passes_placeholder_of_braceClean (hL start) i)))
        (fun g2 h2 => hg g2 (by simp [h2])) hL]
    simp [phFilledL, List.append_assoc]

theorem trimEnd_append {x t : List Char} (h : t.reverse.dropWhile Char.isWhitespace ≠ []) :
    jsTrimEnd (x ++ t) = x ++ jsTrimEnd t := by
  unfold jsTrimEnd
  rw [List.reverse_append, List.dropWhile_append, if_neg (by simpa using h),
    List.reverse_append, List.reverse_reverse]

theorem trimCond_append {x t : List Char} (h : t.reverse.dropWhile Char.isWhitespace ≠ []) :
    (x ++ t).reverse.dropWhile Char.isWhitespace ≠ [] := by
  rw [List.reverse_append, List.dropWhile_append, if_neg (by simpa using h)]
  intro hc
  rw [List.append_eq_nil] at hc
  exact h hc.1

theorem trimCond_filled {L : Nat → List Char} :
    ∀ (gaps : List (List Char)) (start : Nat) {tail : List Char},
      tail.reverse.dropWhile Char.isWhitespace ≠ [] →
      (phFilledL gaps L start tail).reverse.dropWhile Char.isWhitespace ≠ []
  | [], _, _, h => h
  | g :: gs, start, tail, h => by
    show (g ++ (L start ++ phFilledL gs L (start + 1) tail)).reverse.dropWhile _ ≠ []
    exact trimCond_append (trimCond_append (trimCond_filled gs (start + 1) h))

theorem trimEnd_filled {L : Nat → List Char} :
    ∀ (gaps : List (List Char)) (start : Nat) {tail : List Char},
      tail.reverse.dropWhile Char.isWhitespace ≠ [] →
      jsTrimEnd (phFilledL gaps L start tail) = phFilledL gaps L start (jsTrimEnd tail)
  | [], _, _, _ => rfl
  | g :: gs, start, tail, h => by
    show jsTrimEnd (g ++ (L start ++ phFilledL gs L (start + 1) tail)) = _
    rw [trimEnd_append (trimCond_append (trimCond_filled gs (start + 1) h)),
      trimEnd_append (trimCond_filled gs (start + 1) h), trimEnd_filled gs (start + 1) h]
    rfl

theorem prefix_append_split {α : Type} {l x y : List α} (h : l <+: x ++ y) :
    l <+: x ∨ ∃ q, l = x ++ q ∧ q <+: y := by
  by_cases hl : l.length ≤ x.length
  · exact Or.inl ((List.isPrefix_append_of_length hl).mp h)
  · right
    have hx : x <+: l :=
      List.prefix_of_prefix_length_le (List.prefix_append x y) h (by omega)
    obtain ⟨q, rfl⟩ := hx
    exact ⟨q, rfl, (List.prefix_append_right_inj x).mp h⟩

theorem infix_append_split {α : Type} {x y pat : List α} (h : pat <:+: x ++ y) :
    pat <:+: x ∨ pat <:+: y
      ∨ ∃ p q, p ++ q = pat ∧ p ≠ [] ∧ q ≠ [] ∧ p <:+ x ∧ q <+: y := by
  induction x with
  | nil =>
    rw [List.nil_append] at h
    exact Or.inr (Or.inl h)
  | cons a x ih =>
    rw [List.cons_append] at h
    rcases List.infix_cons_iff.mp h with hp | hi
    · cases pat with
      | nil => exact Or.inl List.nil_infix
      | cons b pt =>
        rcases List.cons_prefix_cons.mp hp with ⟨hb, hpt⟩
        rcases prefix_append_split hpt with hpx | ⟨q, hq, hqy⟩
        · exact Or.inl (List.IsPrefix.isInfix (List.cons_prefix_cons.mpr ⟨hb, hpx⟩))
        · by_cases hqnil : q = []
          · subst hqnil
            rw [List.append_nil] at hq
            subst hq
            subst hb
            exact Or.inl List.infix_rfl
          · refine Or.inr (Or.inr ⟨b :: x, q, ?_, by simp, hqnil, ?_, hqy⟩)
            · rw [hq]
              rfl
            · rw [hb]
    · rcases ih hi with hx | hy | ⟨p, q, hpq, hpn, hqn, hpx, hqy⟩
      · exact Or.inl (hx.trans (List.suffix_cons a x).isInfix)
      · exact Or.inr (Or.inl hy)
      · exact Or.inr (Or.inr ⟨p, q, hpq, hpn, hqn, hpx.trans (List.suffix_cons a x), hqy⟩)

theorem infix_mid_elim {α : Type} {pat l x y : List α} (hpat : pat ≠ []) (hl : l ≠ [])
    (hdisj : ∀ c ∈ pat, c ∉ l) (h : pat <:+: x ++ (l ++ y)) :
    pat <:+: x ∨ pat <:+: y := by
  rcases infix_append_split h with hx | hly | ⟨p, q, hpq, hpn, hqn, _, hqly⟩
  · exact Or.inl hx
  · rcases infix_append_split hly with hll | hyy | ⟨p, q, hpq, hpn, _, hpl, _⟩
    · cases pat with
      | nil => exact absurd rfl hpat
      | cons b pt => exact absurd (hll.subset (by simp)) (hdisj b (by simp))
    · exact Or.inr hyy
    · cases p with
      | nil => exact absurd rfl hpn
      | cons b pt =>
        refine absurd (hpl.subset (show b ∈ b :: pt by simp)) (hdisj b ?_)
        rw [← hpq]
        simp
  · cases q with
    | nil => exact absurd rfl hqn
    | cons qc qt =>
      cases l with
      | nil => exact absurd rfl hl
      | cons lc lt =>
        rcases List.cons_prefix_cons.mp hqly with ⟨hqc, _⟩
        refine absurd ?_ (hdisj qc ?_)
        · rw [hqc]
          simp
        · rw [← hpq]
          simp

theorem getD_mem_or_default {α : Type} (l : List α) (i : Nat) (d : α) :
    l.getD i d ∈ l ∨ l.getD i d = d := by
  rcases Nat.lt_or_ge i l.length with h | h
  · left
    rw [List.getD_eq_getElem l d h]
    exact List.getElem_mem h
  · right
    rw [List.getD_eq_default l d h]

theorem braceClean_bin {v : Int} (h0 : 0 ≤ v) (h31 : v ≤ 31) :
    BraceClean (rowToBinChars v) := by
  have h : ∀ n : Nat, n < 32 → BraceClean (rowToBinChars (n : Int)) := by decide
  have h2 := h v.toNat (by omega)
  rwa [Int.toNat_of_nonneg h0] at h2

theorem braceClean_hex {v : Int} (h0 : 0 ≤ v) (h31 : v ≤ 31) :
    BraceClean (rowToHexChars v) := by
  have h : ∀ n : Nat, n < 32 → BraceClean (rowToHexChars (n : Int)) := by decide
  have h2 := h v.toNat (by omega)
  rwa [Int.toNat_of_nonneg h0] at h2

theorem lineFn_braceClean {rows : List Int} {dt : DataType}
    (hv : ∀ v ∈ rows, 0 ≤ v ∧ v ≤ 31) : ∀ i, BraceClean (lineFn rows dt i) := by
  intro i
  cases dt with
  | bin =>
    show BraceClean ((rowsToBinaryStrings rows).getD i "undefined".data)
    rcases getD_mem_or_default (rowsToBinaryStrings rows) i ("undefined".data) with h | h
    · obtain ⟨v, hvm, hveq⟩ := List.mem_map.mp h
      rw [← hveq]
      exact braceClean_bin (hv v hvm).1 (hv v hvm).2
    · rw [h]
      decide
  | hex =>
    show BraceClean ((rowsToHexStrings rows).getD i "undefined".data)
    rcases getD_mem_or_default (rowsToHexStrings rows) i ("undefined".data) with h | h
    · obtain ⟨v, hvm, hveq⟩ := List.mem_map.mp h
      rw [← hveq]
      exact braceClean_hex (hv v hvm).1 (hv v hvm).2
    · rw [h]
      decide

theorem lineFn_ne_nil (rows : List Int) (dt : DataType) : ∀ i, lineFn rows dt i ≠ [] := by
  intro i
  cases dt with
  | bin =>
    show (rowsToBinaryStrings rows).getD i "undefined".data ≠ []
    rcases getD_mem_or_default (rowsToBinaryStrings rows) i ("undefined".data) with h | h
    · obtain ⟨v, _, hveq⟩ := List.mem_map.mp h
      rw [← hveq]
      exact List.cons_ne_nil _ _
    · rw [h]
      decide
  | hex =>
    show (rowsToHexStrings rows).getD i "undefined".data ≠ []
    rcases getD_mem_or_default (rowsToHexStrings rows) i ("undefined".data) with h | h
    · obtain ⟨v, _, hveq⟩ := List.mem_map.mp h
      rw [← hveq]
      exact List.cons_ne_nil _ _
    · rw [h]
      decide

theorem lineFn_const_disjoint {rows : List Int} {dt : DataType}
    (hlen : rows.length = 8) (hv : ∀ v ∈ rows, 0 ≤ v ∧ v ≤ 31) :
    ∀ i, i < 8 → ∀ c ∈ ("const").data, c ∉ lineFn rows dt i := by
  have hbin : ∀ n : Nat, n < 32 → ∀ c ∈ ("const").data, c ∉ rowToBinChars (n : Int) := by
    decide
  have hhex : ∀ n : Nat, n < 32 → ∀ c ∈ ("const").data, c ∉ rowToHexChars (n : Int) := by
    decide
  intro i hi
  have hval : ∀ v : Int, v ∈ rows → ∀ c ∈ ("const").data,
      c ∉ (match dt with | .hex => rowToHexChars v | .bin => rowToBinChars v) := by
    intro v hvm
    rcases hv v hvm with ⟨h0, h31⟩
    cases dt with
    | bin =>
      have h2 := hbin v.toNat (by omega)
      rwa [Int.toNat_of_nonneg h0] at h2
    | hex =>
      have h2 := hhex v.toNat (by omega)
      rwa [Int.toNat_of_nonneg h0] at h2
  cases dt with
  | bin =>
    show ∀ c ∈ ("const").data, c ∉ (rowsToBinaryStrings rows).getD i "undefined".data
    have hi2 : i < (rowsToBinaryStrings rows).length := by
      simp [rowsToBinaryStrings, hlen, hi]
    rw [List.getD_eq_getElem _ _ hi2]
    simp only [rowsToBinaryStrings, List.getElem_map]
    exact hval _ (List.getElem_mem _)
  | hex =>
    show ∀ c ∈ ("const").data, c ∉ (rowsToHexStrings rows).getD i "undefined".data
    have hi2 : i < (rowsToHexStrings rows).length := by
      simp [rowsToHexStrings, hlen, hi]
    rw [List.getD_eq_getElem _ _ hi2]
    simp only [rowsToHexStrings, List.getElem_map]
    exact hval _ (List.getElem_mem _)

theorem build_decomp {pre tailT tmpl : String} (rows : List Int) (dt : DataType)
    (hdec : tmpl.data = (pre.data ++ ['\x7b', '\n']) ++ phSkeleton stdGaps 0 tailT.data)
    (hA : BraceClean pre.data)
    (htail : tailT.data.reverse.dropWhile Char.isWhitespace ≠ [])
    (hL : ∀ i, BraceClean (lineFn rows dt i)) :
    jsTrimEnd (substDataLines tmpl.data
        (if dt = .hex then rowsToHexStrings rows else rowsToBinaryStrings rows))
      = (pre.data ++ ['\x7b', '\n'])
          ++ phFilledL stdGaps (lineFn rows dt) 0 (jsTrimEnd tailT.data) := by
  have hpre : ∀ i, PassesThrough (pre.data ++ ['\x7b', '\n']) (placeholder i) := by
    intro i
    refine passes_append (passes_placeholder_of_braceClean hA i) ?_
    rw [placeholder_eq]
    exact passes_pair (by decide) (by decide)
  have hsub : substDataLines tmpl.data
      (if dt = .hex then rowsToHexStrings rows else rowsToBinaryStrings rows)
      = (List.range' 0 stdGaps.length).foldl
          (fun code i => jsReplaceOnce code (placeholder i) (lineFn rows dt i)) tmpl.data := by
    rw [substDataLines,
      show List.range ROWS = List.range' 0 stdGaps.length from List.range_eq_range' 8]
    rfl
  rw [hsub, hdec, substChain stdGaps 0 _ _ hpre (by decide) hL,
    trimEnd_append (trimCond_filled stdGaps 0 htail), trimEnd_filled stdGaps 0 htail]

theorem buildLC_parallel_decomp (rows : List Int) (dt : DataType)
    (hL : ∀ i, BraceClean (lineFn rows dt i)) :
    (buildArduinoCodeLC rows .parallel dt).data
      = (preParallelLC.data ++ ['\x7b', '\n'])
          ++ phFilledL stdGaps (lineFn rows dt) 0 (jsTrimEnd tailParallelLC.data) := by
  have h0 : (buildArduinoCodeLC rows .parallel dt).data
      = jsTrimEnd (substDataLines templateParallelLC.data
          (if dt = .hex then rowsToHexStrings rows else rowsToBinaryStrings rows)) := by
    simp [buildArduinoCodeLC]
  rw [h0]
  exact build_decomp rows dt (by rfl) (by decide) (by decide) hL

theorem buildLC_i2c_decomp (rows : List Int) (dt : DataType)
    (hL : ∀ i, BraceClean (lineFn rows dt i)) :
    (buildArduinoCodeLC rows .i2c dt).data
      = (preI2cLC.data ++ ['\x7b', '\n'])
          ++ phFilledL stdGaps (lineFn rows dt) 0 (jsTrimEnd tailI2cLC.data) := by
  have h0 : (buildArduinoCodeLC rows .i2c dt).data
      = jsTrimEnd (substDataLines templateI2cLC.data
          (if dt = .hex then rowsToHexStrings rows else rowsToBinaryStrings rows)) := by
    simp [buildArduinoCodeLC]
  rw [h0]
  exact build_decomp rows dt (by rfl) (by decide) (by decide) hL

theorem buildHD_parallel_decomp (rows : List Int) (dt : DataType)
    (hL : ∀ i, BraceClean (lineFn rows dt i)) :
    (buildArduinoCodeHD rows .parallel dt).data
      = (preParallelHD.data ++ ['\x7b', '\n'])
          ++ phFilledL stdGaps (lineFn rows dt) 0 (jsTrimEnd tailHD.data) := by
  have h0 : (buildArduinoCodeHD rows .parallel dt).data
      = jsTrimEnd (substDataLines templateParallelHD.data
          (if dt = .hex then rowsToHexStrings rows else rowsToBinaryStrings rows)) := by
    simp [buildArduinoCodeHD]
  rw [h0]
  exact build_decomp rows dt (by rfl) (by decide) (by decide) hL

theorem buildHD_i2c_decomp (rows : List Int) (dt : DataType)
    (hL : ∀ i, BraceClean (lineFn rows dt i)) :
    (buildArduinoCodeHD rows .i2c dt).data
      = (preI2cHD.data ++ ['\x7b', '\n'])
          ++ phFilledL stdGaps (lineFn rows dt) 0 (jsTrimEnd tailHD.data) := by
  have h0 : (buildArduinoCodeHD rows .i2c dt).data
      = jsTrimEnd (substDataLines templateI2cHD.data
          (if dt = .hex then rowsToHexStrings rows else rowsToBinaryStrings rows)) := by
    simp [buildArduinoCodeHD]
  rw [h0]
  exact build_decomp rows dt (by rfl) (by decide) (by decide) hL

theorem infix_pre_part {pat pre rest : List Char} (h : pat <:+: pre) :
    pat <:+: pre ++ rest :=
  h.trans (List.prefix_append pre rest).isInfix

theorem suffix_filled {L : Nat → List Char} :
    ∀ (gaps : List (List Char)) (start : Nat) (tail : List Char),
      tail <:+ phFilledL gaps L start tail
  | [], _, _ => List.suffix_rfl
  | g :: gs, start, tail => by
    show tail <:+ g ++ (L start ++ phFilledL gs L (start + 1) tail)
    exact ((suffix_filled gs (start + 1) tail).trans (List.suffix_append _ _)).trans
      (List.suffix_append _ _)

theorem not_infix_filled {pat : List Char} {L : Nat → List Char} (hpat : pat ≠ [])
    (hLne : ∀ i, L i ≠ []) :
    ∀ (gaps : List (List Char)) (start : Nat) (x tail : List Char),
      (∀ i, start ≤ i → i < start + gaps.length → ∀ c ∈ pat, c ∉ L i) →
      (∀ seg ∈ infixSegs x gaps tail, ¬ pat <:+: seg) →
      ¬ pat <:+: x ++ phFilledL gaps L start tail
  | [], _, x, tail, _, hobl => fun h => hobl (x ++ tail) (by simp [infixSegs]) h
  | g :: gs, start, x, tail, hdisj, hobl => by
    intro h
    have h2 : pat <:+: (x ++ g) ++ (L start ++ phFilledL gs L (start + 1) tail) := by
      simpa [phFilledL, List.append_assoc] using h
    rcases infix_mid_elim hpat (hLne start)
        (hdisj start (Nat.le_refl start) (by simp only [List.length_cons]; omega)) h2 with
      hx | hy
    · exact hobl (x ++ g) (by simp [infixSegs]) hx
    · refine not_infix_filled hpat hLne gs (start + 1) [] tail
        (fun i h1 h2i => hdisj i (by omega)
          (by simp only [List.length_cons]; omega))
        (fun seg hs => hobl seg (by simp [infixSegs, hs])) ?_
      simpa using hy

theorem jsTrunc_intCast (n : Int) : jsTrunc ((n : ℚ)) = n := by
  rw [jsTrunc, Rat.num_intCast, Rat.den_intCast, Nat.cast_one]
  exact Int.tdiv_one n

/-- C4: `clampRowValue` is total with an integer result in `[0, 31]`:
non-finite input (NaN, ±Infinity) maps to 0, finite input is truncated
toward zero and clamped; `clamp(-5) = 0`, `clamp(40) = 31`, `clamp(NaN) = 0`,
and `clamp` is the identity on every integer already in `[0, 31]`. -/
theorem spec_C4_clamp :
    (∀ v : JSNum, 0 ≤ clampRowValue v ∧ clampRowValue v ≤ 31)
      ∧ clampRowValue (.num (-5)) = 0
      ∧ clampRowValue (.num 40) = 31
      ∧ clampRowValue .nan = 0
      ∧ clampRowValue .posInf = 0
      ∧ clampRowValue .negInf = 0
      ∧ (∀ n : Int, 0 ≤ n → n ≤ 31 → clampRowValue (.num (n : ℚ)) = n) := by
  refine ⟨?_, by decide, by decide, rfl, rfl, rfl, ?_⟩
  · intro v
    cases v <;> constructor <;> simp [clampRowValue] <;> omega
  · intro n h0 h31
    rw [show clampRowValue (.num (n : ℚ)) = max 0 (min 31 (jsTrunc (n : ℚ))) from rfl,
      jsTrunc_intCast n]
    omega

theorem spec_C4_clamp_witness :
    (0 : Int) ≤ 7 ∧ (7 : Int) ≤ 31 ∧ clampRowValue (.num ((7 : Int) : ℚ)) = 7 :=
  ⟨by decide, by decide, spec_C4_clamp.2.2.2.2.2.2 7 (by decide) (by decide)⟩

theorem jsToUpperCase_ne_nil (c : Char) : jsToUpperCase c ≠ [] := by
  unfold jsToUpperCase
  split_ifs <;> simp

theorem indexOfStr_none_of_not_infix {needle : List Char} :
    ∀ {l : List Char}, ¬ (needle <:+: l) → ∀ k, indexOfStr l needle k = none := by
  intro l
  induction l with
  | nil =>
    intro h k
    rw [indexOfStr, if_neg]
    intro he
    exact h (by simp [List.isEmpty_iff.mp he])
  | cons c cs ih =>
    intro h k
    rw [indexOfStr, if_neg]
    · exact ih (fun hi => h (List.infix_cons_iff.mpr (Or.inr hi))) (k + 1)
    · intro hp
      exact h (List.isPrefixOf_iff_prefix.mp hp).isInfix

theorem indexOfStr_lt {needle : List Char} (hne : needle ≠ []) :
    ∀ {l : List Char} {k i : Nat}, indexOfStr l needle k = some i → i < k + l.length := by
  intro l
  induction l with
  | nil =>
    intro k i h
    rw [indexOfStr, if_neg (by simp [List.isEmpty_iff, hne])] at h
    exact absurd h (by simp)
  | cons c cs ih =>
    intro k i h
    rw [indexOfStr] at h
    by_cases hp : needle.isPrefixOf (c :: cs) = true
    · rw [if_pos hp] at h
      have h2 := Option.some.inj h
      simp only [List.length_cons]
      omega
    · rw [if_neg hp] at h
      have h2 := ih h
      simp only [List.length_cons]
      omega

theorem decodeChars_none {cs : List Char} (h : ∃ c ∈ cs, base32IndexOf c = none) :
    decodeChars cs = none := by
  induction cs with
  | nil => simp at h
  | cons c cs ih =>
    obtain ⟨c2, hm, hc2⟩ := h
    rcases List.mem_cons.mp hm with rfl | hm2
    · rw [decodeChars, hc2]
    · cases hidx : base32IndexOf c with
      | none => rw [decodeChars, hidx]
      | some i => rw [decodeChars, hidx, ih ⟨c2, hm2, hc2⟩]; rfl

/-- C3: decoding rejects malformed tokens: any string whose length differs
from 8, or containing a character whose (JavaScript, possibly Unicode)
uppercase form is not found in the 32-symbol alphabet, decodes to `none` —
never to a partial result.  Characters are matched case-insensitively via
`jsToUpperCase`. -/
theorem spec_C3_decode_reject (s : String)
    (h : s.length ≠ 8 ∨ ∃ c ∈ s.data, ¬ (jsToUpperCase c <:+: BASE32.data)) :
    decodeRowsBase32 s = none := by
  rcases h with h | ⟨c, hm, hc⟩
  · rw [decodeRowsBase32, if_neg (show ¬ s.length = ROWS from h)]
  · rw [decodeRowsBase32]
    by_cases hlen : s.length = ROWS
    · rw [if_pos hlen]
      exact decodeChars_none
        ⟨c, hm, by rw [base32IndexOf]; exact indexOfStr_none_of_not_infix hc 0⟩
    · rw [if_neg hlen]

theorem spec_C3_decode_reject_witness : decodeRowsBase32 "!!!!!!!!" = none :=
  spec_C3_decode_reject "!!!!!!!!" (Or.inr ⟨'!', by decide, by decide⟩)

theorem decodeChars_some_spec {cs : List Char} :
    ∀ {out : List Int}, decodeChars cs = some out →
      out.length = cs.length ∧ ∀ v ∈ out, 0 ≤ v ∧ v ≤ 31 := by
  induction cs with
  | nil =>
    intro out h
    obtain rfl : ([] : List Int) = out := Option.some.inj h
    exact ⟨rfl, by simp⟩
  | cons c cs ih =>
    intro out h
    rw [decodeChars] at h
    cases hidx : base32IndexOf c with
    | none => rw [hidx] at h; exact absurd h (by simp)
    | some i =>
      rw [hidx] at h
      obtain ⟨rest, hrest, rfl⟩ := Option.map_eq_some'.mp h
      have hi : i < 32 := by
        have h2 : indexOfStr BASE32.data (jsToUpperCase c) 0 = some i := hidx
        have h3 := indexOfStr_lt (jsToUpperCase_ne_nil c) h2
        have h4 : BASE32.data.length = 32 := rfl
        omega
      rcases ih hrest with ⟨hlen, hall⟩
      refine ⟨by simp [hlen], ?_⟩
      intro v hv
      rcases List.mem_cons.mp hv with rfl | hv2
      · constructor <;> omega
      · exact hall v hv2

/-- C10: whenever `decodeRowsBase32` succeeds, its value is a list of exactly
8 integers, each in `[0, 31]` — every successful decode already satisfies the
row-value invariant. -/
theorem spec_C10_decode_valid (s : String) (out : List Int)
    (h : decodeRowsBase32 s = some out) :
    out.length = 8 ∧ ∀ v ∈ out, 0 ≤ v ∧ v ≤ 31 := by
  rw [decodeRowsBase32] at h
  by_cases hlen : s.length = ROWS
  · rw [if_pos hlen] at h
    rcases decodeChars_some_spec h with ⟨h1, h2⟩
    exact ⟨by rw [h1]; exact hlen, h2⟩
  · rw [if_neg hlen] at h
    exact absurd h (by simp)

theorem spec_C10_decode_valid_witness :
    (List.replicate 8 (0 : Int)).length = 8
      ∧ ∀ v ∈ List.replicate 8 (0 : Int), 0 ≤ v ∧ v ≤ 31 :=
  spec_C10_decode_valid "00000000" (List.replicate 8 0) (by decide)

theorem encode_decode_chars :
    ∀ (rows : List Int), (∀ v ∈ rows, 0 ≤ v ∧ v ≤ 31) →
      decodeChars (rows.map (fun v => BASE32.data.getD (clampInt v).toNat '0'))
        = some rows := by
  intro rows
  induction rows with
  | nil => intro _; rfl
  | cons v rs ih =>
    intro hv
    have hv1 := hv v (by simp)
    have hall : ∀ n : Nat, n < 32 →
        base32IndexOf (BASE32.data.getD (clampInt (n : Int)).toNat '0')
            = some (clampInt (n : Int)).toNat
          ∧ (((clampInt (n : Int)).toNat : Nat) : Int) = (n : Int) := by decide
    have helem := hall v.toNat (by omega)
    rw [Int.toNat_of_nonneg hv1.1] at helem
    simp only [List.map_cons, decodeChars, helem.1,
      ih (fun x hx => hv x (by simp [hx])), Option.map_some']
    rw [helem.2]

/-- C2: token round-trip — decoding the Base32 token produced by encoding a
valid 8-row vector (each value in `[0, 31]`) returns exactly that vector. -/
theorem spec_C2_token_roundtrip (rows : List Int) (hlen : rows.length = 8)
    (hv : ∀ v ∈ rows, 0 ≤ v ∧ v ≤ 31) :
    decodeRowsBase32 (encodeRowsBase32 rows) = some rows := by
  have hlen2 : (encodeRowsBase32 rows).length = 8 := by
    show (rows.map _).length = 8
    rw [List.length_map]
    exact hlen
  rw [decodeRowsBase32, if_pos (show (encodeRowsBase32 rows).length = ROWS from hlen2)]
  exact encode_decode_chars rows hv

theorem spec_C2_token_roundtrip_witness :
    decodeRowsBase32 (encodeRowsBase32 [31, 17, 17, 31, 1, 1, 31, 0])
      = some [31, 17, 17, 31, 1, 1, 31, 0] :=
  spec_C2_token_roundtrip [31, 17, 17, 31, 1, 1, 31, 0] (by decide) (by decide)

theorem invertRow_invol : ∀ v : Int, 0 ≤ v → v ≤ 31 → invertRow (invertRow v) = v := by
  have h : ∀ n : Nat, n < 32 → invertRow (invertRow (n : Int)) = (n : Int) := by decide
  intro v h0 h31
  have h2 := h v.toNat (by omega)
  rwa [Int.toNat_of_nonneg h0] at h2

/-- C7: `invert` is self-inverse — applying the per-row transformation
`clamp((~v) & 0b11111)` twice to a vector of 8 values in `[0, 31]` returns
the original vector. -/
theorem spec_C7_invert_involutive (rows : List Int) (hlen : rows.length = 8)
    (hv : ∀ v ∈ rows, 0 ≤ v ∧ v ≤ 31) :
    invertRows (invertRows rows) = rows := by
  rw [invertRows, invertRows, List.map_map]
  exact (List.map_congr_left
      (fun x hx => invertRow_invol x (hv x hx).1 (hv x hx).2)).trans
    (List.map_id rows)

theorem spec_C7_invert_involutive_witness :
    invertRows (invertRows [31, 17, 17, 31, 1, 1, 31, 0]) = [31, 17, 17, 31, 1, 1, 31, 0] :=
  spec_C7_invert_involutive [31, 17, 17, 31, 1, 1, 31, 0] (by decide) (by decide)

theorem sameRows_self (p : List Int) : sameRows p p = true := by
  rw [sameRows, List.all_eq_true]
  intro q hq
  obtain ⟨i, x⟩ := q
  have h2 := List.mem_enum hq
  show (p.get? i == some x) = true
  rw [List.get?_eq_getElem?, List.getElem?_eq_getElem h2.1]
  simp [h2.2]

theorem sameRows_eq {p r : List Int} (hlen : p.length = r.length)
    (h : sameRows p r = true) : p = r := by
  rw [sameRows, List.all_eq_true] at h
  apply List.ext_get?
  intro n
  rcases Nat.lt_or_ge n p.length with hn | hn
  · have hm : (n, p[n]) ∈ p.enum := by
      rw [List.mem_enum_iff_getElem?]
      exact List.getElem?_eq_getElem hn
    have h3 := h (n, p[n]) hm
    rw [beq_iff_eq] at h3
    rw [List.get?_eq_getElem?, List.getElem?_eq_getElem hn]
    exact h3.symm
  · rw [List.get?_eq_none.mpr hn, List.get?_eq_none.mpr (by omega)]

/-- C5: the commit rule — committing a vector element-wise equal to the
present snapshot returns the history unchanged; committing a different
vector appends the old present to the past, installs the new vector, and
clears the future. -/
theorem spec_C5_commit_rule (h : EditHistory) (r : List Int)
    (hp : h.present.length = 8) (hr : r.length = 8) :
    (h.present = r → commitRows h r = h)
      ∧ (h.present ≠ r → commitRows h r = ⟨h.past ++ [h.present], r, []⟩) := by
  constructor
  · intro heq
    rw [commitRows, if_pos (by rw [heq]; exact sameRows_self r)]
  · intro hne
    rw [commitRows, if_neg (fun hs => hne (sameRows_eq (by omega) hs))]

theorem spec_C5_commit_rule_witness :
    commitRows initialHistory (List.replicate 8 0) = initialHistory :=
  (spec_C5_commit_rule initialHistory (List.replicate 8 0) (by decide) (by decide)).1 rfl

/-- C6: `undo` is the identity on a history with empty past and `redo` on a
history with empty future; from the initial history, committing
`[1,0,0,0,0,0,0,0]` and undoing restores the all-zero present, and a
subsequent redo restores `[1,0,0,0,0,0,0,0]`. -/
theorem spec_C6_undo_redo :
    (∀ h : EditHistory, h.past = [] → undo h = h)
      ∧ (∀ h : EditHistory, h.future = [] → redo h = h)
      ∧ (undo (commitRows initialHistory [1, 0, 0, 0, 0, 0, 0, 0])).present = emptyRows
      ∧ (redo (undo (commitRows initialHistory [1, 0, 0, 0, 0, 0, 0, 0]))).present
          = [1, 0, 0, 0, 0, 0, 0, 0] := by
  refine ⟨?_, ?_, by decide, by decide⟩
  · intro h hp
    rw [undo, if_pos (by rw [hp]; rfl)]
  · intro h hf
    simp [redo, hf]

theorem spec_C6_undo_redo_witness : undo initialHistory = initialHistory :=
  spec_C6_undo_redo.1 initialHistory rfl

theorem list_len5 {α : Type} (l : List α) (h : l.length = 5) :
    ∃ a b c d e, l = [a, b, c, d, e] := by
  match l with
  | [a, b, c, d, e] => exact ⟨a, b, c, d, e, rfl⟩
  | [] | [_] | [_, _] | [_, _, _] | [_, _, _, _] => simp at h
  | _ :: _ :: _ :: _ :: _ :: _ :: _ => simp at h

theorem list_len8 {α : Type} (l : List α) (h : l.length = 8) :
    ∃ a b c d e f g h2, l = [a, b, c, d, e, f, g, h2] := by
  match l with
  | [a, b, c, d, e, f, g, h2] => exact ⟨a, b, c, d, e, f, g, h2, rfl⟩
  | [] | [_] | [_, _] | [_, _, _] | [_, _, _, _] | [_, _, _, _, _] | [_, _, _, _, _, _]
  | [_, _, _, _, _, _, _] => simp at h
  | _ :: _ :: _ :: _ :: _ :: _ :: _ :: _ :: _ :: _ => simp at h

theorem gridRow_rowVal (row : List Bool) (h5 : row.length = 5) :
    gridRowOf (rowValOf row) = row := by
  obtain ⟨a, b, c, d, e, rfl⟩ := list_len5 row h5
  revert a b c d e
  decide

theorem rowVal_gridRow : ∀ v : Int, 0 ≤ v → v ≤ 31 → rowValOf (gridRowOf v) = v := by
  have h : ∀ n : Nat, n < 32 → rowValOf (gridRowOf (n : Int)) = (n : Int) := by decide
  intro v h0 h31
  have h2 := h v.toNat (by omega)
  rwa [Int.toNat_of_nonneg h0] at h2

theorem rowsToGrid_map {l : List Int} (h : l.length = 8) :
    rowsToGrid l = l.map gridRowOf := by
  obtain ⟨v0, v1, v2, v3, v4, v5, v6, v7, rfl⟩ := list_len8 l h
  rfl

/-- C1: matrix/rows round-trip — converting any 8×5 boolean matrix to row
values and back yields the same matrix, and converting any valid 8-row
vector (values in `[0, 31]`) to a matrix and back yields the same vector,
with column `c` mapped to bit `COLS - 1 - c`. -/
theorem spec_C1_matrix_roundtrip :
    (∀ m : List (List Bool), m.length = 8 → (∀ row ∈ m, row.length = 5) →
      rowsToGrid (gridToRows m) = m)
      ∧ (∀ rows : List Int, rows.length = 8 → (∀ v ∈ rows, 0 ≤ v ∧ v ≤ 31) →
        gridToRows (rowsToGrid rows) = rows) := by
  constructor
  · intro m hm hrows
    rw [gridToRows, rowsToGrid_map (by rw [List.length_map]; exact hm), List.map_map]
    exact (List.map_congr_left
        (fun row hrow => gridRow_rowVal row (hrows row hrow))).trans
      (List.map_id m)
  · intro rows hlen hv
    rw [rowsToGrid_map hlen, gridToRows, List.map_map]
    exact (List.map_congr_left
        (fun v hvm => rowVal_gridRow v (hv v hvm).1 (hv v hvm).2)).trans
      (List.map_id rows)

theorem spec_C1_matrix_roundtrip_witness :
    rowsToGrid (gridToRows (List.replicate 8 (List.replicate 5 true)))
      = List.replicate 8 (List.replicate 5 true) :=
  spec_C1_matrix_roundtrip.1 (List.replicate 8 (List.replicate 5 true))
    (by decide) (by decide)

theorem infix_tail_part {pat pre2 tail : List Char} {L : Nat → List Char}
    {gaps : List (List Char)} {start : Nat} (h : pat <:+: tail) :
    pat <:+: pre2 ++ phFilledL gaps L start tail :=
  (h.trans (suffix_filled gaps start tail).isInfix).trans
    (List.suffix_append pre2 _).isInfix

/-- C8: firmware template shape — for every valid row vector and literal
style: the hd44780 variant's direct-pin (parallel) output contains the six
pin-number constants and the direct `hd44780_pinIO` initialization, while
its bus-expander (i2c) output contains no `const` pin declaration at all and
uses the auto-detecting `hd44780_I2Cexp` initialization; the LiquidCrystal
variant's parallel output carries the six pin numbers and
`lcd.begin(16, 2)`, and its i2c output the `LiquidCrystal_I2C`
constructor and the pinless `lcd.begin()`. -/
theorem spec_C8_template_shape (rows : List Int) (dt : DataType)
    (hlen : rows.length = 8) (hv : ∀ v ∈ rows, 0 ≤ v ∧ v ≤ 31) :
    (∀ p ∈ pinConstLines, p.data <:+: (buildArduinoCodeHD rows .parallel dt).data)
      ∧ ("hd44780_pinIO lcd(LCD_RS, LCD_EN, LCD_D4, LCD_D5, LCD_D6, LCD_D7);").data
          <:+: (buildArduinoCodeHD rows .parallel dt).data
      ∧ ¬ (("const").data <:+: (buildArduinoCodeHD rows .i2c dt).data)
      ∧ ("hd44780_I2Cexp lcd;").data <:+: (buildArduinoCodeHD rows .i2c dt).data
      ∧ ("LiquidCrystal lcd(12, 11, 5, 4, 3, 2); // RS, E, D4, D5, D6, D7").data
          <:+: (buildArduinoCodeLC rows .parallel dt).data
      ∧ ("lcd.begin(16, 2);").data <:+: (buildArduinoCodeLC rows .parallel dt).data
      ∧ ("LiquidCrystal_I2C lcd(0x3F, 16, 2);").data
          <:+: (buildArduinoCodeLC rows .i2c dt).data
      ∧ ("lcd.begin();").data <:+: (buildArduinoCodeLC rows .i2c dt).data := by
  have hL := @lineFn_braceClean rows dt hv
  have hHDp := buildHD_parallel_decomp rows dt hL
  have hHDi := buildHD_i2c_decomp rows dt hL
  have hLCp := buildLC_parallel_decomp rows dt hL
  have hLCi := buildLC_i2c_decomp rows dt hL
  refine ⟨?_, ?_, ?_, ?_, ?_, ?_, ?_, ?_⟩
  · intro p hp
    rw [hHDp]
    have hip : ∀ p2 ∈ pinConstLines, p2.data <:+: preParallelHD.data := by decide
    exact infix_pre_part (infix_pre_part (hip p hp))
  · rw [hHDp]
    exact infix_pre_part (infix_pre_part (by decide))
  · rw [hHDi]
    refine not_infix_filled (by decide) (lineFn_ne_nil rows dt) stdGaps 0 _ _
      (fun i h1 h2 => lineFn_const_disjoint hlen hv i ?_) (by decide)
    have hsg : stdGaps.length = 8 := rfl
    omega
  · rw [hHDi]
    exact infix_pre_part (infix_pre_part (by decide))
  · rw [hLCp]
    exact infix_pre_part (infix_pre_part (by decide))
  · rw [hLCp]
    exact infix_tail_part (by decide)
  · rw [hLCi]
    exact infix_pre_part (infix_pre_part (by decide))
  · rw [hLCi]
    exact infix_tail_part (by decide)

theorem spec_C8_template_shape_witness :
    ("hd44780_I2Cexp lcd;").data
      <:+: (buildArduinoCodeHD (List.replicate 8 0) .i2c .bin).data :=
  (spec_C8_template_shape (List.replicate 8 0) .bin (by decide) (by decide)).2.2.2.1

theorem clampRowValue_range (v : JSNum) :
    0 ≤ clampRowValue v ∧ clampRowValue v ≤ 31 := by
  cases v <;> constructor <;> simp [clampRowValue] <;> omega

/-- C9 (counterexample): importing a list-shaped export containing one
record whose `rows` array has 7 elements does NOT yield a stored record with
8 repaired rows — the record is dropped by the length-8 filter and the
resulting store is empty. -/
theorem spec_C9_import_counterexample :
    importMergeSaves [rawSevenRows] (fun _ => "fresh") (.num 0) = []
      ∧ ¬ ∃ s ∈ importMergeSaves [rawSevenRows] (fun _ => "fresh") (.num 0),
          s.rows.length = 8 := by
  refine ⟨rfl, ?_⟩
  rintro ⟨s, hs, -⟩
  rw [show importMergeSaves [rawSevenRows] (fun _ => "fresh") (.num 0) = ([] : List SaveItem)
    from rfl] at hs
  exact absurd hs (List.not_mem_nil s)

/-- C9 (amended): the list-import branch drops (filters out) any candidate
record whose `rows` array does not have exactly 8 entries, rather than
padding it; every record it does store has exactly 8 rows with every value
clamped into `[0, 31]`, and the stored count equals the count of surviving
candidates. -/
theorem spec_C9_import_filter (incoming : List RawSave) (freshId : Nat → String)
    (now : JSNum) :
    (∀ s ∈ importMergeSaves incoming freshId now,
        s.rows.length = 8 ∧ ∀ v ∈ s.rows, 0 ≤ v ∧ v ≤ 31)
      ∧ (importMergeSaves incoming freshId now).length
          = (incoming.filter keepCandidate).length
      ∧ ∀ x ∈ incoming, ∀ l, x.rows = some l → l.length ≠ 8 →
          keepCandidate x = false := by
  refine ⟨?_, ?_, ?_⟩
  · intro s hs
    rw [importMergeSaves] at hs
    obtain ⟨p, hp, rfl⟩ := List.mem_map.mp hs
    obtain ⟨i, x⟩ := p
    have h2 := List.mem_enum hp
    have hx : x ∈ incoming.filter keepCandidate := by
      rw [h2.2]
      exact List.getElem_mem h2.1
    have hk : keepCandidate x = true := (List.mem_filter.mp hx).2
    cases hrows : x.rows with
    | none =>
      rw [keepCandidate, hrows] at hk
      exact absurd hk (by simp)
    | some l =>
      rw [keepCandidate, hrows] at hk
      have hlen : l.length = 8 := by simpa using hk
      constructor
      · simp [hlen]
      · intro v hvm
        obtain ⟨w, _, rfl⟩ := List.mem_map.mp hvm
        exact clampRowValue_range w
  · rw [importMergeSaves]
    simp
  · intro x _ l hrows hne
    rw [keepCandidate, hrows]
    exact beq_eq_false_iff_ne.mpr hne

theorem spec_C9_import_filter_witness : keepCandidate rawSevenRows = false :=
  (spec_C9_import_filter [rawSevenRows] (fun _ => "fresh") (.num 0)).2.2 rawSevenRows
    (by simp) (List.replicate 7 (.num 1)) rfl (by decide)
